import Mathlib

/-!
Shallow embedding of the NachOS MP4 `FileHeader` chaining subsystem
(`code/filesys/filehdr.cc`): the chained extent header with its
Allocate / Deallocate / FetchFrom / WriteBack / ByteToSector / FileLength
operations, together with a model of the external Free-Space Map
(`PersistentBitmap`) and of the Block Store (sector-indexed disk).

Machine `int`s are modelled as `Int`; C++ `/` and `%` on `int` are
truncating division, modelled by `Int.tdiv` / `Int.tmod`.
-/

namespace NachOSFileHdr

/-- Modelled from the spec (the defining headers `disk.h`/`filehdr.h` are not
under `src/`): size in bytes of one disk sector. `SectorSize = 128`. -/
def SectorSize : Nat := 128

/-- Modelled from the spec: number of direct sector entries in one header
node. `NumDirect = 30`. -/
def NumDirect : Nat := 30

/-- Modelled from the spec: `MaxFileSize = NumDirect × SectorSize` — the
bytes one header node can describe. -/
def MaxFileSize : Nat := NumDirect * SectorSize

/-- Modelled from the spec: the NachOS `divRoundUp(n,s)` macro
(`= ceil(n/s)` for nonnegative `n`), written with C truncating
division/modulus exactly as the macro expands:
`(n / s) + ((n % s) > 0 ? 1 : 0)`. -/
def divRoundUp (n s : Int) : Int :=
  n.tdiv s + (if 0 < n.tmod s then 1 else 0)

/-! ## The Free-Space Map (`PersistentBitmap`, external collaborator)

Modelled from the spec: a bitmap over a fixed universe of sector indices
with `countFree`, `findAndClaim` (lowest free index, or -1), `clear` and
`test`. We represent it as a `List Bool`, `true` = used. -/

/-- The Free-Space Map: one `Bool` per sector, `true` = marked used. -/
abbrev FreeMap := List Bool

/-- Modelled from the spec: `test(sectorIndex)` — is the sector marked used?
Out-of-range (or negative) indices read as not used. -/
def Test (m : FreeMap) (i : Int) : Bool :=
  if i < 0 then false else m.getD i.toNat false

/-- Modelled from the spec: `clear(sectorIndex)` — mark the sector free.
Out-of-range indices are a no-op. -/
def Clear (m : FreeMap) (i : Int) : FreeMap :=
  if i < 0 then m else m.set i.toNat false

/-- Modelled from the spec: `countFree()` — the number of free sectors. -/
def NumClear (m : FreeMap) : Int :=
  (m.count false : Nat)

/-- Modelled from the spec: `findAndClaim()` — claim the lowest free sector,
returning its index and the updated map, or `-1` (map unchanged) when no
sector is free. -/
def FindAndSet : FreeMap → Int × FreeMap
  | [] => (-1, [])
  | false :: rest => (0, true :: rest)
  | true :: rest =>
    let p := FindAndSet rest
    (if p.1 = -1 then -1 else p.1 + 1, true :: p.2)

/-- The `for`-loop of `FileHeader::Allocate` that claims `n` sectors one at
a time with `FindAndSet`, in order: returns the list of claimed indices and
the final map. -/
def findAndSetN : FreeMap → Nat → List Int × FreeMap
  | m, 0 => ([], m)
  | m, n + 1 =>
    let p := FindAndSet m
    let q := findAndSetN p.2 n
    (p.1 :: q.1, q.2)

/-- The `for`-loop of `FileHeader::Deallocate` over a list of data sectors:
`ASSERT(freeMap->Test(s))` then `freeMap->Clear(s)` for each; `none`
models the fatal assertion failure (the loop halts the machine). -/
def clearSectors : FreeMap → List Int → Option FreeMap
  | m, [] => some m
  | m, s :: rest =>
    if Test m s then clearSectors (Clear m s) rest else none

/-! ## The FileHeader chain -/

/-- One in-memory `FileHeader` node: `numBytes`, `numSectors`, the
`dataSectors` array (`NumDirect` entries), the on-disk continuation sector
`nextHeaderSector` (-1 = none) and the in-memory continuation pointer
`nextHeader` (`none` = `NULL`).  The `Option`-nesting mirrors the
exclusively-owned recursive pointer of the C++ class. -/
inductive FileHeader : Type where
  | mk : (numBytes : Int) → (numSectors : Int) → (dataSectors : List Int) →
      (nextHeaderSector : Int) → (nextHeader : Option FileHeader) → FileHeader

/-- Structural equality test for `FileHeader` (decidability helper). -/
def FileHeader.beq : FileHeader → FileHeader → Bool
  | .mk b ns ds nhs none, .mk b' ns' ds' nhs' none =>
    decide (b = b') && decide (ns = ns') && decide (ds = ds') && decide (nhs = nhs')
  | .mk b ns ds nhs (some c), .mk b' ns' ds' nhs' (some c') =>
    decide (b = b') && decide (ns = ns') && decide (ds = ds') && decide (nhs = nhs')
      && FileHeader.beq c c'
  | _, _ => false

/-- Accessor: `numBytes`. -/
def FileHeader.numBytes : FileHeader → Int
  | .mk b _ _ _ _ => b

/-- Accessor: `numSectors`. -/
def FileHeader.numSectors : FileHeader → Int
  | .mk _ ns _ _ _ => ns

/-- Accessor: `dataSectors`. -/
def FileHeader.dataSectors : FileHeader → List Int
  | .mk _ _ ds _ _ => ds

/-- Accessor: `nextHeaderSector`. -/
def FileHeader.nextHeaderSector : FileHeader → Int
  | .mk _ _ _ nhs _ => nhs

/-- Accessor: the in-memory continuation pointer (`none` = `NULL`). -/
def FileHeader.nextHeader : FileHeader → Option FileHeader
  | .mk _ _ _ _ nh => nh

/-- Constructor `FileHeader::FileHeader()`: `numBytes = -1`,
`numSectors = -1`, `memset(dataSectors, -1, ...)` (every entry `-1`),
`nextHeader = NULL`, `nextHeaderSector = -1`. -/
def emptyFileHeader : FileHeader :=
  .mk (-1) (-1) (List.replicate NumDirect (-1)) (-1) none

/-! ## Allocate

`FileHeader::Allocate(freeMap, fileSize)` mutates the receiver header and
the free map and returns a success flag; we model it as a function
returning `(success, header', freeMap')`.  The C++ recursion is on
`remaining = fileSize - MaxFileSize` (strictly smaller whenever the guard
`remaining > 0` holds), which is not structural; `allocAux` carries an
explicit fuel that `Allocate` instantiates large enough
(`allocAux_fuel_irrelevant` shows any sufficient fuel gives the same
result, so the fuel is invisible). -/

/-- The body of `FileHeader::Allocate`, fuel-indexed.  Mirrors
`filehdr.cc` lines 76–111 statement for statement, including:
* `numBytes`/`numSectors` are assigned before the `NumClear` capacity
  check (so a capacity failure still updates them);
* on the continuation path, `nextHeader = new FileHeader` then
  `nextHeaderSector = freeMap->FindAndSet()`; when that claim returns
  `-1` the code does `delete nextHeader; return FALSE;` — the pointer
  variable keeps its (now dangling) non-null value, modelled by leaving
  the field `some emptyFileHeader`;
* no sector claimed earlier in the call is released on any failure path. -/
def allocAux : Nat → FileHeader → FreeMap → Int → Bool × FileHeader × FreeMap
  | 0, hdr, m, _ => (false, hdr, m)
  | fuel + 1, hdr, m, fileSize =>
    let remaining : Int := fileSize - (MaxFileSize : Int)
    let nb : Int := if 0 < remaining then (MaxFileSize : Int) else fileSize
    let ns : Int := divRoundUp nb (SectorSize : Int)
    if NumClear m < ns then
      (false, .mk nb ns hdr.dataSectors hdr.nextHeaderSector hdr.nextHeader, m)
    else
      let p := findAndSetN m ns.toNat
      let ds1 := p.1 ++ hdr.dataSectors.drop ns.toNat
      if 0 < remaining then
        let q := FindAndSet p.2
        if q.1 = -1 then
          (false, .mk nb ns ds1 (-1) (some emptyFileHeader), q.2)
        else
          let r := allocAux fuel emptyFileHeader q.2 remaining
          (r.1, .mk nb ns ds1 q.1 (some r.2.1), r.2.2)
      else
        (true, .mk nb ns ds1 hdr.nextHeaderSector hdr.nextHeader, p.2)

/-- Function `FileHeader::Allocate(freeMap, fileSize)`: the fuel `fileSize.toNat + 1`
always suffices, since each recursive call strictly decreases
`fileSize.toNat` (by `MaxFileSize`). -/
def Allocate (hdr : FileHeader) (m : FreeMap) (fileSize : Int) :
    Bool × FileHeader × FreeMap :=
  allocAux (fileSize.toNat + 1) hdr m fileSize

/-! ## Deallocate -/

/-- Method `FileHeader::Deallocate(freeMap)` (filehdr.cc lines 120–131): if the
in-memory continuation pointer is non-null, recursively deallocate it
first; then for each of this node's `numSectors` direct entries, assert it
is marked used (fatal otherwise — modelled by `none`) and clear it.
The sector the continuation itself occupies (`nextHeaderSector`) is never
cleared. -/
def Deallocate : FileHeader → FreeMap → Option FreeMap
  | .mk _ ns ds _ none, m => clearSectors m (ds.take ns.toNat)
  | .mk _ ns ds _ (some c), m =>
    match Deallocate c m with
    | none => none
    | some m1 => clearSectors m1 (ds.take ns.toNat)

/-! ## ByteToSector and FileLength -/

/-- Method `FileHeader::ByteToSector(offset)` (filehdr.cc lines 224–237):
`idx = offset / SectorSize`; if `idx < NumDirect` return
`dataSectors[idx]`; else if the continuation pointer is non-null recurse
with `offset - MaxFileSize`; else return `-1`. -/
def ByteToSector : FileHeader → Int → Int
  | .mk _ _ ds _ nh, off =>
    let idx := off.tdiv (SectorSize : Int)
    if idx < (NumDirect : Int) then ds.getD idx.toNat 0
    else
      match nh with
      | some c => ByteToSector c (off - (MaxFileSize : Int))
      | none => -1

/-- Method `FileHeader::FileLength()` (filehdr.cc lines 244–254): this node's
`numBytes` plus the continuation's `FileLength()` when present. -/
def FileLength : FileHeader → Int
  | .mk b _ _ _ none => b
  | .mk b _ _ _ (some c) => b + FileLength c

/-! ## The Block Store and serialization

`WriteBack`/`FetchFrom` copy the four fields at fixed byte offsets
(0, 4, 8, 8 + NumDirect·4) into/out of `char buf[SectorSize]`.  Under the
stated constants the first three copies occupy bytes 0..127 — exactly
filling the 128-byte buffer — while the fourth (`nextHeaderSector`, at
offset `4 + 4 + NumDirect·4 = 128`) falls entirely outside it (see
`headerRecordBytes`).  `WriteSector`/`ReadSector` transfer exactly
`SectorSize` bytes, so a sector persists only `numBytes`, `numSectors`
and the `NumDirect` `dataSectors` entries; the out-of-buffer write never
reaches the disk, and the out-of-buffer read in `FetchFrom` yields
whatever stack memory lies past the buffer — an unspecified value,
modelled below by an oracle. -/

/-- Contents of one sector as `WriteSector` persists it for a header node:
the `SectorSize` bytes of the buffer, holding `numBytes` (bytes 0..3),
`numSectors` (bytes 4..7), and the `NumDirect` direct entries
(bytes 8..127).  The node's `nextHeaderSector` is NOT part of the
persisted sector: its copy targets bytes 128..131, past the buffer. -/
structure DiskRecord where
  numBytes : Int
  numSectors : Int
  dataSectors : List Int
  deriving DecidableEq

/-- The Block Store: contents of each sector. -/
abbrev Disk := Int → DiskRecord

/-- Disk write `synchDisk->WriteSector(sector, buf)`: persists exactly the
`SectorSize` in-buffer bytes. -/
def diskWrite (d : Disk) (sector : Int) (r : DiskRecord) : Disk :=
  fun t => if t = sector then r else d t

/-- The in-buffer `SectorSize` bytes `WriteBack` builds for a node: the
first three `memcpy`s; the fourth (`nextHeaderSector`) misses the
buffer and so contributes nothing to what `WriteSector` persists. -/
def recordOf (h : FileHeader) : DiskRecord :=
  ⟨h.numBytes, h.numSectors, h.dataSectors⟩

/-- Method `FileHeader::WriteBack(sector)` (filehdr.cc lines 179–212): fill
the buffer (the `nextHeaderSector` copy at offset 128 lands outside
`buf[SectorSize]` — undefined behavior, settled under C5 — so the
persisted sector is `recordOf`), call `WriteSector`, then, if
`nextHeaderSector != -1`, recursively
`nextHeader->WriteBack(nextHeaderSector)`.  When
`nextHeaderSector != -1` but the in-memory pointer is `NULL`, the C++
dereferences a null pointer; `none` models that crash. -/
def WriteBack : FileHeader → Disk → Int → Option Disk
  | h@(.mk _ _ _ nhs nh), d, sector =>
    let d1 := diskWrite d sector (recordOf h)
    if nhs = -1 then some d1
    else
      match nh with
      | some c => WriteBack c d1 nhs
      | none => none

/-- Method `FileHeader::FetchFrom(sector)` (filehdr.cc lines 140–170):
`ReadSector` fills `buf[0..SectorSize)`; the first three `memcpy`s read
`numBytes`, `numSectors`, `dataSectors` from it, and the fourth reads
`nextHeaderSector` from bytes 128..131 — beyond the bytes `ReadSector`
filled, i.e. whatever stack memory lies past the buffer.  The oracle
`gar n` supplies that unspecified value at recursion depth `n`; no
execution of the program determines it from the disk.  If the value read
is not `-1`, `nextHeader = new FileHeader` is fetched recursively from
that sector (when it is `-1` the pointer field is left as it was —
`NULL` on the freshly constructed headers the code calls this on).  The
recursion follows those links, which need not terminate, so it carries
fuel; `none` models a fetch that would not terminate within `fuel`
links. -/
def FetchFrom : Nat → (Nat → Int) → FileHeader → Disk → Int → Option FileHeader
  | 0, _, _, _, _ => none
  | fuel + 1, gar, hdr, d, sector =>
    let r := d sector
    let nhs := gar 0
    if nhs = -1 then
      some (.mk r.numBytes r.numSectors r.dataSectors nhs hdr.nextHeader)
    else
      (FetchFrom fuel (fun n => gar (n + 1)) emptyFileHeader d nhs).map fun c =>
        .mk r.numBytes r.numSectors r.dataSectors nhs (some c)

/-- Byte size of the serialized node record, from the four `memcpy` calls
of `WriteBack`/`FetchFrom`: `sizeof(numBytes) + sizeof(numSectors) +
NumDirect * sizeof(int) + sizeof(nextHeaderSector)` with 4-byte ints
(the widths of §6 of the spec). -/
def headerRecordBytes : Nat := 4 + 4 + NumDirect * 4 + 4

/-- Byte offset at which the final `memcpy` of `WriteBack`/`FetchFrom`
places/reads `nextHeaderSector` in the `char buf[SectorSize]` buffer. -/
def nextHeaderSectorOffset : Nat := 4 + 4 + NumDirect * 4

/-! ## Derived chain notions used by the claims -/

/-- The list of nodes of a chain, root first, following the in-memory
continuation pointers. -/
def chainNodes : FileHeader → List FileHeader
  | h@(.mk _ _ _ _ none) => [h]
  | h@(.mk _ _ _ _ (some c)) => h :: chainNodes c

/-- Number of nodes in a chain. -/
def chainLength : FileHeader → Nat
  | .mk _ _ _ _ none => 1
  | .mk _ _ _ _ (some c) => 1 + chainLength c

/-- The pointer/sector consistency invariant of the spec: at every node,
the in-memory continuation pointer is non-null iff `nextHeaderSector` is
not the sentinel `-1`. -/
def consistentB : FileHeader → Bool
  | .mk _ _ _ nhs none => decide (nhs = -1)
  | .mk _ _ _ nhs (some c) => decide (nhs ≠ -1) && consistentB c

/-- The sectors `WriteBack h d root` writes, in order: the root sector,
then the continuation sectors down the chain. -/
def writtenSectors : FileHeader → Int → List Int
  | .mk _ _ _ nhs nh, sector =>
    sector ::
      (match nh with
       | some c => if nhs = -1 then [] else writtenSectors c nhs
       | none => [])

/-- The disk state holds, at every node's sector down the chain, exactly
that node's persisted fields (`numBytes`, `numSectors`, `dataSectors`) —
what a completed `WriteBack` leaves on disk. -/
def chainPersisted : FileHeader → Int → Disk → Prop
  | h@(.mk _ _ _ nhs nh), sector, d =>
    d sector = recordOf h ∧
      (match nh with
       | some c => if nhs = -1 then True else chainPersisted c nhs d
       | none => True)

/-- Shape of a chain produced by a successful `Allocate`: every node's
`dataSectors` has the full `NumDirect` entries, every non-terminal node
describes exactly `MaxFileSize` bytes, and the terminal node describes
between 0 and `MaxFileSize` bytes. -/
def goodChain : FileHeader → Bool
  | .mk b _ ds _ none =>
    decide (ds.length = NumDirect) && decide (0 ≤ b) && decide (b ≤ (MaxFileSize : Int))
  | .mk b _ ds _ (some c) =>
    decide (ds.length = NumDirect) && decide (b = (MaxFileSize : Int)) && goodChain c

/-- A chain whose unused direct entries still hold the constructor's `-1`:
every node has the full `NumDirect` entries, a nonnegative `numSectors`,
and every entry from position `numSectors` on equal to `-1`; non-terminal
nodes are full (`numSectors = NumDirect`). -/
def paddedChain : FileHeader → Bool
  | .mk _ ns ds _ none =>
    decide (ds.length = NumDirect) && decide (0 ≤ ns) &&
      (ds.drop ns.toNat).all (fun s => decide (s = -1))
  | .mk _ _ ds _ (some c) =>
    decide (ds.length = NumDirect) && paddedChain c

/-- The byte extent actually addressable through claimed sectors:
`numSectors * SectorSize` at the terminal node, a full `MaxFileSize` per
non-terminal node. -/
def allocatedSpan : FileHeader → Int
  | .mk _ ns _ _ none => ns * (SectorSize : Int)
  | .mk _ _ _ _ (some c) => (MaxFileSize : Int) + allocatedSpan c

/-- All direct sectors `Deallocate` visits: each node's first `numSectors`
entries of `dataSectors`, concatenated over the chain (root node first;
the order here is only used as a set). -/
def chainDirectSectors : FileHeader → List Int
  | .mk _ ns ds _ none => ds.take ns.toNat
  | .mk _ ns ds _ (some c) => ds.take ns.toNat ++ chainDirectSectors c

/-- Node number `n` of a chain (0 = root), following continuation
pointers; `none` when the chain is shorter. -/
def nodeAt : FileHeader → Nat → Option FileHeader
  | h, 0 => some h
  | .mk _ _ _ _ (some c), n + 1 => nodeAt c n
  | .mk _ _ _ _ none, _ + 1 => none

/-- The translation *as the spec words it* (claim C6): the sector index is
`directSectors[(offset mod MaxFileSize) / SectorSize]` of the chain node
with index `offset / MaxFileSize`; `-1` when that node does not exist. -/
def byteToSectorSpec (h : FileHeader) (off : Int) : Int :=
  match nodeAt h (off.tdiv (MaxFileSize : Int)).toNat with
  | some node =>
    node.dataSectors.getD ((off.tmod (MaxFileSize : Int)).tdiv (SectorSize : Int)).toNat 0
  | none => -1

/-! ## Statement-level state-threading embeddings of the two queries

`ByteToSector` and `FileLength` contain no assignment to any field and no
call into the Free-Space Map or the Block Store, so their faithful
embedding is pure.  To state the frame claim (C10) non-vacuously, these
variants additionally thread the receiver chain through each (recursive)
call, returning the object state after the call: each recursive call's
resulting subchain is reinstalled in the parent, exactly modelling the
object graph when the method returns. -/

/-- Variant of `ByteToSector` returning also the receiver chain after the call. -/
def byteToSectorTr : FileHeader → Int → Int × FileHeader
  | .mk b ns ds nhs none, off =>
    let idx := off.tdiv (SectorSize : Int)
    if idx < (NumDirect : Int) then (ds.getD idx.toNat 0, .mk b ns ds nhs none)
    else (-1, .mk b ns ds nhs none)
  | .mk b ns ds nhs (some c), off =>
    let idx := off.tdiv (SectorSize : Int)
    if idx < (NumDirect : Int) then (ds.getD idx.toNat 0, .mk b ns ds nhs (some c))
    else
      let p := byteToSectorTr c (off - (MaxFileSize : Int))
      (p.1, .mk b ns ds nhs (some p.2))

/-- Variant of `FileLength` returning also the receiver chain after the call. -/
def fileLengthTr : FileHeader → Int × FileHeader
  | .mk b ns ds nhs none => (b, .mk b ns ds nhs none)
  | .mk b ns ds nhs (some c) =>
    let p := fileLengthTr c
    (b + p.1, .mk b ns ds nhs (some p.2))

/-! ## Decidability of header equality -/

theorem FileHeader.beq_iff : ∀ a b : FileHeader, FileHeader.beq a b = true ↔ a = b
  | .mk _ _ _ _ none, .mk _ _ _ _ none => by
    simp [FileHeader.beq]
    tauto
  | .mk _ _ _ _ none, .mk _ _ _ _ (some _) => by
    simp [FileHeader.beq]
  | .mk _ _ _ _ (some _), .mk _ _ _ _ none => by
    simp [FileHeader.beq]
  | .mk _ _ _ _ (some c), .mk _ _ _ _ (some c') => by
    have ih := FileHeader.beq_iff c c'
    simp [FileHeader.beq, ih]
    tauto

instance : DecidableEq FileHeader := fun a b =>
  decidable_of_iff _ (FileHeader.beq_iff a b)

/-! ## Free-Space Map toolkit -/

theorem Test_neg {m : FreeMap} {j : Int} (h : j < 0) : Test m j = false := by
  simp [Test, h]

theorem Test_cons_zero (x : Bool) (l : FreeMap) : Test (x :: l) 0 = x := by
  simp [Test]

theorem Test_cons_pos (x : Bool) (l : FreeMap) {j : Int} (h : 0 < j) :
    Test (x :: l) j = Test l (j - 1) := by
  have h1 : ¬ j < 0 := by omega
  have h2 : ¬ j - 1 < 0 := by omega
  have h3 : j.toNat = (j - 1).toNat + 1 := by omega
  unfold Test
  rw [if_neg h1, if_neg h2, h3, List.getD_cons_succ]

theorem Clear_cons_zero (x : Bool) (l : FreeMap) : Clear (x :: l) 0 = false :: l := by
  simp [Clear]

theorem Clear_cons_pos (x : Bool) (l : FreeMap) {j : Int} (h : 0 < j) :
    Clear (x :: l) j = x :: Clear l (j - 1) := by
  have h1 : ¬ j < 0 := by omega
  have h2 : ¬ j - 1 < 0 := by omega
  have h3 : j.toNat = (j - 1).toNat + 1 := by omega
  unfold Clear
  rw [if_neg h1, if_neg h2, h3, List.set_cons_succ]

theorem Test_Clear_ne (m : FreeMap) {i j : Int} (h : j ≠ i) :
    Test (Clear m i) j = Test m j := by
  by_cases hi : i < 0
  · simp [Clear, hi]
  · by_cases hj : j < 0
    · simp [Test_neg hj]
    · have hne : j.toNat ≠ i.toNat := by omega
      simp only [Test, Clear, if_neg hi, if_neg hj]
      rw [List.getD_eq_getElem?_getD, List.getD_eq_getElem?_getD,
        List.getElem?_set_ne (Ne.symm hne)]

theorem Test_Clear_self (m : FreeMap) (i : Int) : Test (Clear m i) i = false := by
  by_cases hi : i < 0
  · simp [Test_neg hi]
  · simp only [Test, Clear, if_neg hi]
    by_cases hlen : i.toNat < m.length
    · rw [List.getD_eq_getElem?_getD, List.getElem?_set_self (by simpa using hlen)]
      rfl
    · rw [List.getD_eq_getElem?_getD, List.getElem?_eq_none (by simpa using hlen)]
      rfl

theorem Clear_Clear_comm (m : FreeMap) (i j : Int) :
    Clear (Clear m i) j = Clear (Clear m j) i := by
  by_cases hi : i < 0
  · simp [Clear, hi]
  · by_cases hj : j < 0
    · simp [Clear, hj]
    · by_cases hij : i = j
      · subst hij; rfl
      · have hne : i.toNat ≠ j.toNat := by omega
        simp only [Clear, if_neg hi, if_neg hj]
        exact List.set_comm _ _ _ hne

theorem FindAndSet_cases (m : FreeMap) :
    ((FindAndSet m).1 = -1 ∧ (FindAndSet m).2 = m ∧ m.count false = 0) ∨
    (0 ≤ (FindAndSet m).1 ∧ Test m (FindAndSet m).1 = false ∧
     Test (FindAndSet m).2 (FindAndSet m).1 = true ∧
     Clear (FindAndSet m).2 (FindAndSet m).1 = m ∧
     (FindAndSet m).2.count false + 1 = m.count false ∧
     (∀ j, j ≠ (FindAndSet m).1 → Test (FindAndSet m).2 j = Test m j)) := by
  induction m with
  | nil => left; simp [FindAndSet]
  | cons b rest ih =>
    cases b with
    | false =>
      right
      have hfst : (FindAndSet (false :: rest)).1 = 0 := rfl
      have hsnd : (FindAndSet (false :: rest)).2 = true :: rest := rfl
      rw [hfst, hsnd]
      refine ⟨by norm_num, ?_, ?_, ?_, ?_, ?_⟩
      · rw [Test_cons_zero]
      · rw [Test_cons_zero]
      · rw [Clear_cons_zero]
      · simp [List.count_cons]
      · intro j hj
        rcases lt_trichotomy j 0 with h | h | h
        · simp [Test_neg h]
        · exact absurd h hj
        · rw [Test_cons_pos _ _ h, Test_cons_pos _ _ h]
    | true =>
      rcases ih with ⟨h1, h2, h3⟩ | ⟨h0, h1, h2, h3, h4, h5⟩
      · left
        have hfst : (FindAndSet (true :: rest)).1 = -1 := by
          simp [FindAndSet, h1]
        have hsnd : (FindAndSet (true :: rest)).2 = true :: rest := by
          simp [FindAndSet, h2]
        rw [hfst, hsnd]
        refine ⟨rfl, rfl, ?_⟩
        simp [List.count_cons, h3]
      · right
        have hne : (FindAndSet rest).1 ≠ -1 := by omega
        have hfst : (FindAndSet (true :: rest)).1 = (FindAndSet rest).1 + 1 := by
          simp [FindAndSet, if_neg hne]
        have hsnd : (FindAndSet (true :: rest)).2 = true :: (FindAndSet rest).2 := by
          simp [FindAndSet]
        rw [hfst, hsnd]
        refine ⟨by omega, ?_, ?_, ?_, ?_, ?_⟩
        · rw [Test_cons_pos _ _ (by omega)]
          simpa using h1
        · rw [Test_cons_pos _ _ (by omega)]
          simpa using h2
        · rw [Clear_cons_pos _ _ (by omega)]
          simp only [add_sub_cancel_right]
          rw [h3]
        · simp [List.count_cons]
          omega
        · intro j hj
          rcases lt_trichotomy j 0 with h | h | h
          · simp [Test_neg h]
          · subst h; rw [Test_cons_zero, Test_cons_zero]
          · rw [Test_cons_pos _ _ h, Test_cons_pos _ _ h]
            exact h5 _ (by omega)

theorem FindAndSet_succeeds {m : FreeMap} (h : 0 < m.count false) :
    (FindAndSet m).1 ≠ -1 := by
  rcases FindAndSet_cases m with ⟨_, _, h3⟩ | ⟨h0, _⟩
  · omega
  · omega

theorem findAndSetN_length (m : FreeMap) (n : Nat) :
    (findAndSetN m n).1.length = n := by
  induction n generalizing m with
  | zero => rfl
  | succ n ih => simp [findAndSetN, ih]

theorem clearSectors_clear_comm (l : List Int) (m : FreeMap) (i : Int)
    (h : ∀ j ∈ l, j ≠ i) :
    clearSectors (Clear m i) l = (clearSectors m l).map (fun x => Clear x i) := by
  induction l generalizing m with
  | nil => rfl
  | cons s rest ih =>
    have hs : s ≠ i := h s (by simp)
    have hrest : ∀ j ∈ rest, j ≠ i := fun j hj => h j (by simp [hj])
    simp only [clearSectors, Test_Clear_ne m hs]
    by_cases ht : Test m s
    · rw [if_pos ht, if_pos ht, Clear_Clear_comm, ih _ hrest]
    · rw [if_neg ht, if_neg ht]
      rfl

theorem findAndSetN_spec (n : Nat) (m : FreeMap) (h : n ≤ m.count false) :
    (∀ j ∈ (findAndSetN m n).1, 0 ≤ j ∧ Test m j = false) ∧
    (findAndSetN m n).2.count false + n = m.count false ∧
    (∀ j, Test m j = true → Test (findAndSetN m n).2 j = true) ∧
    clearSectors (findAndSetN m n).2 (findAndSetN m n).1 = some m := by
  induction n generalizing m with
  | zero => exact ⟨by simp [findAndSetN], by simp [findAndSetN], fun j hj => by simpa [findAndSetN] using hj, rfl⟩
  | succ n ih =>
    rcases FindAndSet_cases m with ⟨_, _, hc⟩ | ⟨h0, h1, h2, h3, h4, h5⟩
    · omega
    · have hle : n ≤ (FindAndSet m).2.count false := by omega
      obtain ⟨ih1, ih2, ih3, ih4⟩ := ih (FindAndSet m).2 hle
      have hfst : (findAndSetN m (n + 1)).1
          = (FindAndSet m).1 :: (findAndSetN (FindAndSet m).2 n).1 := rfl
      have hsnd : (findAndSetN m (n + 1)).2 = (findAndSetN (FindAndSet m).2 n).2 := rfl
      rw [hfst, hsnd]
      have hmem : ∀ j ∈ (findAndSetN (FindAndSet m).2 n).1, j ≠ (FindAndSet m).1 := by
        intro j hj he
        have := (ih1 j hj).2
        rw [he, h2] at this
        simp at this
      refine ⟨?_, by omega, ?_, ?_⟩
      · intro j hj
        rcases List.mem_cons.mp hj with rfl | hj'
        · exact ⟨h0, h1⟩
        · refine ⟨(ih1 j hj').1, ?_⟩
          rw [← h5 j (hmem j hj'), (ih1 j hj').2]
      · intro j hjt
        have hji : j ≠ (FindAndSet m).1 := by
          intro he; rw [he, h1] at hjt; exact Bool.false_ne_true hjt
        exact ih3 j (by rw [h5 j hji]; exact hjt)
      · have htest : Test (findAndSetN (FindAndSet m).2 n).2 (FindAndSet m).1 = true :=
          ih3 _ h2
        simp only [clearSectors, if_pos htest]
        rw [clearSectors_clear_comm _ _ _ hmem, ih4]
        simp [h3]

/-! ## Allocate: the fuel is invisible -/

theorem allocAux_fuel_irrelevant :
    ∀ (f1 f2 : Nat) (hdr : FileHeader) (m : FreeMap) (fs : Int),
      fs.toNat < f1 → fs.toNat < f2 →
      allocAux f1 hdr m fs = allocAux f2 hdr m fs := by
  intro f1
  induction f1 with
  | zero => intro f2 hdr m fs h1; omega
  | succ k ih =>
    intro f2 hdr m fs h1 h2
    cases f2 with
    | zero => omega
    | succ g =>
      by_cases hrem : 0 < fs - (MaxFileSize : Int)
      · have hM : (MaxFileSize : Int) = 3840 := by decide
        have hk : (fs - (MaxFileSize : Int)).toNat < k := by omega
        have hg : (fs - (MaxFileSize : Int)).toNat < g := by omega
        simp only [allocAux, if_pos hrem]
        rw [ih g emptyFileHeader
          (FindAndSet (findAndSetN m (divRoundUp (MaxFileSize : Int)
            (SectorSize : Int)).toNat).2).2 _ hk hg]
      · simp only [allocAux, if_neg hrem]

/-! ## Arithmetic helpers: C truncating division on nonnegative operands -/

theorem tdiv_coe (a b : Nat) : (a : Int).tdiv (b : Int) = ((a / b : Nat) : Int) := rfl

theorem tmod_coe (a b : Nat) : (a : Int).tmod (b : Int) = ((a % b : Nat) : Int) := rfl

theorem divRoundUp_coe (a b : Nat) :
    divRoundUp (a : Int) (b : Int) = ((a / b + if 0 < a % b then 1 else 0 : Nat) : Int) := by
  unfold divRoundUp
  rw [tdiv_coe, tmod_coe]
  split_ifs <;> omega

theorem divRoundUp_one {k : Nat} (h1 : 1 ≤ k) (h2 : k ≤ MaxFileSize) :
    divRoundUp (k : Int) (MaxFileSize : Int) = 1 := by
  rw [divRoundUp_coe]
  have hM : MaxFileSize = 3840 := rfl
  rcases Nat.lt_or_ge k MaxFileSize with h | h
  · rw [Nat.div_eq_of_lt h, Nat.mod_eq_of_lt h]
    simp
    omega
  · have hk : k = 3840 := by omega
    subst hk
    decide

theorem divRoundUp_step {k : Nat} (h : MaxFileSize < k) :
    divRoundUp (k : Int) (MaxFileSize : Int)
      = 1 + divRoundUp ((k - MaxFileSize : Nat) : Int) (MaxFileSize : Int) := by
  rw [divRoundUp_coe, divRoundUp_coe]
  have hM : MaxFileSize = 3840 := rfl
  rw [Nat.div_eq_sub_div (by omega) (by omega), Nat.mod_eq_sub_mod (by omega)]
  split_ifs <;> omega

/-! ## Chain-shape helpers -/

theorem chainNodes_ne_nil : ∀ h : FileHeader, chainNodes h ≠ []
  | .mk _ _ _ _ none => by simp [chainNodes]
  | .mk _ _ _ _ (some _) => by simp [chainNodes]

/-- Shape of a successful `allocAux` run from a freshly constructed header:
the fields the claims C3 speaks about. -/
theorem allocAux_shape :
    ∀ (fuel : Nat) (fs : Int) (m : FreeMap) (h : FileHeader) (m' : FreeMap),
      fs.toNat < fuel → 0 ≤ fs →
      allocAux fuel emptyFileHeader m fs = (true, h, m') →
      FileLength h = fs ∧
      (chainLength h : Int) = (if fs = 0 then 1 else divRoundUp fs (MaxFileSize : Int)) ∧
      (∀ node ∈ (chainNodes h).dropLast, node.numBytes = (MaxFileSize : Int)) ∧
      (∀ node ∈ chainNodes h,
        node.numSectors = divRoundUp node.numBytes (SectorSize : Int)) := by
  intro fuel
  induction fuel with
  | zero => intro fs m h m' hf; omega
  | succ k ih =>
    intro fs m h m' hf h0 hal
    have hM : (MaxFileSize : Int) = 3840 := by decide
    by_cases hrem : 0 < fs - (MaxFileSize : Int)
    · -- multi-node case: this node is full, recurse
      rw [allocAux] at hal
      simp only [if_pos hrem] at hal
      by_cases hcap : NumClear m < divRoundUp (MaxFileSize : Int) (SectorSize : Int)
      · rw [if_pos hcap] at hal
        simp at hal
      · rw [if_neg hcap] at hal
        set m1 := (findAndSetN m (divRoundUp (MaxFileSize : Int)
          (SectorSize : Int)).toNat).2 with hm1
        by_cases hq : (FindAndSet m1).1 = -1
        · rw [if_pos hq] at hal
          simp at hal
        · rw [if_neg hq] at hal
          set r := allocAux k emptyFileHeader (FindAndSet m1).2
            (fs - (MaxFileSize : Int)) with hr
          obtain ⟨hok, hh, hm'⟩ : r.1 = true ∧
              FileHeader.mk (MaxFileSize : Int)
                (divRoundUp (MaxFileSize : Int) (SectorSize : Int))
                ((findAndSetN m (divRoundUp (MaxFileSize : Int)
                  (SectorSize : Int)).toNat).1 ++
                  emptyFileHeader.dataSectors.drop (divRoundUp (MaxFileSize : Int)
                    (SectorSize : Int)).toNat)
                (FindAndSet m1).1 (some r.2.1) = h ∧ r.2.2 = m' := by
            have := hal
            rw [Prod.ext_iff] at this
            obtain ⟨h1, h2⟩ := this
            rw [Prod.ext_iff] at h2
            exact ⟨h1, h2.1, h2.2⟩
          obtain ⟨ihl, ihc, ihfull, ihns⟩ :=
            ih (fs - (MaxFileSize : Int)) (FindAndSet m1).2 r.2.1 r.2.2
              (by omega) (by omega) (by rw [← hr, ← hok])
          subst hh
          refine ⟨?_, ?_, ?_, ?_⟩
          · show (MaxFileSize : Int) + FileLength r.2.1 = fs
            rw [ihl]; ring
          · show (1 + chainLength r.2.1 : Int)
              = if fs = 0 then 1 else divRoundUp fs (MaxFileSize : Int)
            rw [if_neg (by omega)]
            obtain ⟨n, hn⟩ := Int.eq_ofNat_of_zero_le h0
            subst hn
            have hlt : MaxFileSize < n := by omega
            rw [divRoundUp_step hlt]
            have : ((n : Int) - (MaxFileSize : Int)) = ((n - MaxFileSize : Nat) : Int) := by
              omega
            rw [this] at ihc
            rw [ihc, if_neg (by omega)]
          · intro node hnode
            rw [show chainNodes (FileHeader.mk (MaxFileSize : Int)
                (divRoundUp (MaxFileSize : Int) (SectorSize : Int)) _ _ (some r.2.1))
               = FileHeader.mk (MaxFileSize : Int)
                (divRoundUp (MaxFileSize : Int) (SectorSize : Int)) _ _ (some r.2.1)
                :: chainNodes r.2.1 from rfl,
              List.dropLast_cons_of_ne_nil (chainNodes_ne_nil _)] at hnode
            rcases List.mem_cons.mp hnode with rfl | hnode'
            · rfl
            · exact ihfull node hnode'
          · intro node hnode
            rw [show chainNodes (FileHeader.mk (MaxFileSize : Int)
                (divRoundUp (MaxFileSize : Int) (SectorSize : Int)) _ _ (some r.2.1))
               = FileHeader.mk (MaxFileSize : Int)
                (divRoundUp (MaxFileSize : Int) (SectorSize : Int)) _ _ (some r.2.1)
                :: chainNodes r.2.1 from rfl] at hnode
            rcases List.mem_cons.mp hnode with rfl | hnode'
            · rfl
            · exact ihns node hnode'
    · -- single-node case
      rw [allocAux] at hal
      simp only [if_neg hrem] at hal
      by_cases hcap : NumClear m < divRoundUp fs (SectorSize : Int)
      · rw [if_pos hcap] at hal
        simp at hal
      · rw [if_neg hcap] at hal
        obtain ⟨hh, hm'⟩ : FileHeader.mk fs (divRoundUp fs (SectorSize : Int))
            ((findAndSetN m (divRoundUp fs (SectorSize : Int)).toNat).1 ++
              emptyFileHeader.dataSectors.drop (divRoundUp fs (SectorSize : Int)).toNat)
            emptyFileHeader.nextHeaderSector emptyFileHeader.nextHeader = h ∧
            (findAndSetN m (divRoundUp fs (SectorSize : Int)).toNat).2 = m' := by
          have := hal
          rw [Prod.ext_iff] at this
          obtain ⟨_, h2⟩ := this
          rw [Prod.ext_iff] at h2
          exact ⟨h2.1, h2.2⟩
        subst hh
        refine ⟨rfl, ?_, ?_, ?_⟩
        · show ((1 : Nat) : Int) = if fs = 0 then 1 else divRoundUp fs (MaxFileSize : Int)
          by_cases hz : fs = 0
          · rw [if_pos hz]; rfl
          · rw [if_neg hz]
            obtain ⟨n, hn⟩ := Int.eq_ofNat_of_zero_le h0
            subst hn
            rw [divRoundUp_one (by omega) (by omega)]
            rfl
        · intro node hnode
          simp [chainNodes] at hnode
        · intro node hnode
          rw [show chainNodes (FileHeader.mk fs (divRoundUp fs (SectorSize : Int)) _
              emptyFileHeader.nextHeaderSector emptyFileHeader.nextHeader)
             = [FileHeader.mk fs (divRoundUp fs (SectorSize : Int)) _
              emptyFileHeader.nextHeaderSector emptyFileHeader.nextHeader] from rfl] at hnode
          rcases List.mem_singleton.mp hnode with rfl
          rfl

/-! ## Deallocate soundness machinery -/

theorem clearSectors_sound :
    ∀ (l : List Int) (m : FreeMap), l.Nodup → (∀ s ∈ l, Test m s = true) →
      ∃ m', clearSectors m l = some m' ∧ (∀ s ∈ l, Test m' s = false) ∧
        (∀ t, t ∉ l → Test m' t = Test m t) := by
  intro l
  induction l with
  | nil => exact fun m _ _ => ⟨m, rfl, by simp, fun t _ => rfl⟩
  | cons s rest ih =>
    intro m hnd hall
    obtain ⟨hs_notin, hnd'⟩ := List.nodup_cons.mp hnd
    have hs : Test m s = true := hall s (by simp)
    have hall' : ∀ j ∈ rest, Test (Clear m s) j = true := by
      intro j hj
      rw [Test_Clear_ne m (by rintro rfl; exact hs_notin hj)]
      exact hall j (by simp [hj])
    obtain ⟨m', h1, h2, h3⟩ := ih (Clear m s) hnd' hall'
    refine ⟨m', by simp [clearSectors, hs, h1], ?_, ?_⟩
    · intro t ht
      rcases List.mem_cons.mp ht with rfl | ht'
      · rw [h3 t hs_notin, Test_Clear_self]
      · exact h2 t ht'
    · intro t ht
      have ht1 : t ∉ rest := fun hc => ht (by simp [hc])
      have ht2 : t ≠ s := fun hc => ht (by simp [hc])
      rw [h3 t ht1, Test_Clear_ne m ht2]

theorem deallocate_sound :
    ∀ (h : FileHeader) (m : FreeMap),
      (chainDirectSectors h).Nodup →
      (∀ s ∈ chainDirectSectors h, Test m s = true) →
      ∃ m', Deallocate h m = some m' ∧
        (∀ s ∈ chainDirectSectors h, Test m' s = false) ∧
        (∀ t, t ∉ chainDirectSectors h → Test m' t = Test m t)
  | .mk b ns ds nhs none, m => by
    intro hnd hall
    simp only [chainDirectSectors] at hnd hall ⊢
    simpa only [Deallocate] using clearSectors_sound (ds.take ns.toNat) m hnd hall
  | .mk b ns ds nhs (some c), m => by
    intro hnd hall
    simp only [chainDirectSectors] at hnd hall ⊢
    rw [List.nodup_append] at hnd
    obtain ⟨hnd_own, hnd_child, hdisj⟩ := hnd
    obtain ⟨m1, hm1, hchild_false, hframe1⟩ :=
      deallocate_sound c m hnd_child
        (fun s hs => hall s (List.mem_append_right _ hs))
    have hown1 : ∀ s ∈ ds.take ns.toNat, Test m1 s = true := by
      intro s hs
      rw [hframe1 s (fun hc => hdisj hs hc)]
      exact hall s (List.mem_append_left _ hs)
    obtain ⟨m2, hm2, hown_false, hframe2⟩ :=
      clearSectors_sound (ds.take ns.toNat) m1 hnd_own hown1
    refine ⟨m2, ?_, ?_, ?_⟩
    · simp only [Deallocate, hm1, hm2]
    · intro s hs
      rcases List.mem_append.mp hs with hs' | hs'
      · exact hown_false s hs'
      · rw [hframe2 s (fun hc => hdisj hc hs')]
        exact hchild_false s hs'
    · intro t ht
      have ht1 : t ∉ ds.take ns.toNat := fun hc => ht (List.mem_append_left _ hc)
      have ht2 : t ∉ chainDirectSectors c := fun hc => ht (List.mem_append_right _ hc)
      rw [hframe2 t ht1, hframe1 t ht2]

/-! ## WriteBack / FetchFrom machinery -/

theorem writeBack_frame :
    ∀ (h : FileHeader) (d : Disk) (s : Int) (d' : Disk) (t : Int),
      WriteBack h d s = some d' → t ∉ writtenSectors h s → d' t = d t
  | .mk b ns ds nhs none, d, s, d', t => by
    intro hw ht
    simp only [writtenSectors, List.mem_cons] at ht
    push_neg at ht
    simp only [WriteBack] at hw
    by_cases hnhs : nhs = -1
    · rw [if_pos hnhs] at hw
      obtain rfl : diskWrite d s (recordOf (.mk b ns ds nhs none)) = d' :=
        Option.some_inj.mp hw
      simp [diskWrite, ht.1]
    · rw [if_neg hnhs] at hw
      exact absurd hw (by simp)
  | .mk b ns ds nhs (some c), d, s, d', t => by
    intro hw ht
    simp only [writtenSectors, List.mem_cons] at ht
    push_neg at ht
    simp only [WriteBack] at hw
    by_cases hnhs : nhs = -1
    · rw [if_pos hnhs] at hw
      obtain rfl : diskWrite d s (recordOf (.mk b ns ds nhs (some c))) = d' :=
        Option.some_inj.mp hw
      simp [diskWrite, ht.1]
    · rw [if_neg hnhs] at hw
      have ht2 : t ∉ writtenSectors c nhs := by
        have := ht.2
        rw [if_neg hnhs] at this
        exact this
      rw [writeBack_frame c _ nhs d' t hw ht2]
      simp [diskWrite, ht.1]

theorem writeBack_persists_fields :
    ∀ (h : FileHeader) (root : Int) (d : Disk),
      consistentB h = true → (writtenSectors h root).Nodup →
      ∃ d', WriteBack h d root = some d' ∧ chainPersisted h root d'
  | .mk b ns ds nhs none, root, d => by
    intro hc hnd
    have hnhs : nhs = -1 := by simpa [consistentB] using hc
    subst hnhs
    refine ⟨diskWrite d root (recordOf (.mk b ns ds (-1) none)),
      by simp [WriteBack], ?_, trivial⟩
    simp [diskWrite]
  | .mk b ns ds nhs (some c), root, d => by
    intro hc hnd
    obtain ⟨hnhs, hcc⟩ : nhs ≠ -1 ∧ consistentB c = true := by
      simpa [consistentB] using hc
    have hws : writtenSectors (FileHeader.mk b ns ds nhs (some c)) root
        = root :: writtenSectors c nhs := by
      simp [writtenSectors, if_neg hnhs]
    rw [hws] at hnd
    obtain ⟨hnotin, hnd'⟩ := List.nodup_cons.mp hnd
    obtain ⟨d', hw, hp⟩ := writeBack_persists_fields c nhs
      (diskWrite d root (recordOf (.mk b ns ds nhs (some c)))) hcc hnd'
    refine ⟨d', ?_, ?_, ?_⟩
    · simp only [WriteBack, if_neg hnhs]
      exact hw
    · rw [writeBack_frame c _ nhs d' root hw hnotin]
      simp [diskWrite]
    · simp only [if_neg hnhs]
      exact hp

theorem fetchFrom_root_fields (fuel : Nat) (gar : Nat → Int) (hdr0 : FileHeader)
    (d : Disk) (sector : Int) (h' : FileHeader)
    (hf : FetchFrom (fuel + 1) gar hdr0 d sector = some h') :
    h'.numBytes = (d sector).numBytes ∧ h'.numSectors = (d sector).numSectors ∧
    h'.dataSectors = (d sector).dataSectors ∧ h'.nextHeaderSector = gar 0 := by
  simp only [FetchFrom] at hf
  by_cases hg : gar 0 = -1
  · rw [if_pos hg] at hf
    obtain rfl : FileHeader.mk (d sector).numBytes (d sector).numSectors
        (d sector).dataSectors (gar 0) hdr0.nextHeader = h' := Option.some_inj.mp hf
    exact ⟨rfl, rfl, rfl, rfl⟩
  · rw [if_neg hg] at hf
    cases hrec : FetchFrom fuel (fun n => gar (n + 1)) emptyFileHeader d (gar 0) with
    | none => rw [hrec] at hf; simp at hf
    | some c =>
      rw [hrec] at hf
      obtain rfl : FileHeader.mk (d sector).numBytes (d sector).numSectors
          (d sector).dataSectors (gar 0) (some c) = h' := by simpa using hf
      exact ⟨rfl, rfl, rfl, rfl⟩

/-! ## ByteToSector machinery -/

theorem byteToSector_walk :
    ∀ (h : FileHeader) (off : Int), goodChain h = true → 0 ≤ off →
      off < FileLength h → ByteToSector h off = byteToSectorSpec h off
  | .mk b ns ds nhs none, off => by
    intro hg h0 hlt
    obtain ⟨⟨hlen, hb0⟩, hbM⟩ : (ds.length = NumDirect ∧ 0 ≤ b) ∧
        b ≤ (MaxFileSize : Int) := by
      simpa [goodChain] using hg
    simp only [FileLength] at hlt
    lift off to ℕ using h0 with k
    have hk : k < MaxFileSize := by
      have : (k : Int) < (MaxFileSize : Int) := lt_of_lt_of_le hlt hbM
      exact_mod_cast this
    have hsec : k / SectorSize < NumDirect :=
      Nat.div_lt_of_lt_mul (by rw [Nat.mul_comm]; exact hk)
    simp only [ByteToSector, byteToSectorSpec, tdiv_coe, tmod_coe]
    rw [if_pos (by exact_mod_cast hsec)]
    rw [Nat.div_eq_of_lt hk, Nat.mod_eq_of_lt hk]
    simp [nodeAt, FileHeader.dataSectors]
  | .mk b ns ds nhs (some c), off => by
    intro hg h0 hlt
    obtain ⟨⟨hlen, hbM⟩, hgc⟩ : (ds.length = NumDirect ∧ b = (MaxFileSize : Int)) ∧
        goodChain c = true := by
      simpa [goodChain] using hg
    simp only [FileLength] at hlt
    lift off to ℕ using h0 with k
    rcases Nat.lt_or_ge k MaxFileSize with hk | hk
    · have hsec : k / SectorSize < NumDirect :=
        Nat.div_lt_of_lt_mul (by rw [Nat.mul_comm]; exact hk)
      simp only [ByteToSector, byteToSectorSpec, tdiv_coe, tmod_coe]
      rw [if_pos (by exact_mod_cast hsec)]
      rw [Nat.div_eq_of_lt hk, Nat.mod_eq_of_lt hk]
      simp [nodeAt, FileHeader.dataSectors]
    · have hsec : NumDirect ≤ k / SectorSize := by
        rw [Nat.le_div_iff_mul_le (by decide : 0 < SectorSize)]
        exact hk
      have hcond : ¬ ((k : Int).tdiv (SectorSize : Int) < (NumDirect : Int)) := by
        rw [tdiv_coe]
        exact_mod_cast Nat.not_lt.mpr hsec
      have hsub : ((k : Int) - (MaxFileSize : Int)) = ((k - MaxFileSize : Nat) : Int) := by
        omega
      have hspec : byteToSectorSpec (.mk b ns ds nhs (some c)) (k : Int)
          = byteToSectorSpec c ((k - MaxFileSize : Nat) : Int) := by
        simp only [byteToSectorSpec, tdiv_coe, tmod_coe]
        rw [Nat.div_eq_sub_div (by decide : 0 < MaxFileSize) hk,
          Nat.mod_eq_sub_mod hk]
        simp only [Int.toNat_natCast, nodeAt]
      rw [hspec]
      simp only [ByteToSector]
      rw [if_neg hcond, hsub]
      refine byteToSector_walk c _ hgc (Int.natCast_nonneg _) ?_
      have hM : (MaxFileSize : Int) = 3840 := by decide
      omega

theorem allocatedSpan_nonneg :
    ∀ h : FileHeader, paddedChain h = true → 0 ≤ allocatedSpan h
  | .mk b ns ds nhs none => by
    intro hp
    obtain ⟨⟨hlen, hns⟩, hpad⟩ : (ds.length = NumDirect ∧ 0 ≤ ns) ∧
        ∀ x ∈ ds.drop ns.toNat, x = -1 := by
      simpa [paddedChain] using hp
    simp only [allocatedSpan]
    exact mul_nonneg hns (by positivity)
  | .mk b ns ds nhs (some c) => by
    intro hp
    have hc : paddedChain c = true := by
      simp [paddedChain] at hp
      exact hp.2
    have := allocatedSpan_nonneg c hc
    simp only [allocatedSpan]
    have hM : (MaxFileSize : Int) = 3840 := by decide
    omega

theorem byteToSector_sentinel :
    ∀ (h : FileHeader) (off : Int), paddedChain h = true →
      allocatedSpan h ≤ off → ByteToSector h off = -1
  | .mk b ns ds nhs none, off => by
    intro hp hspan
    obtain ⟨⟨hlen, hns⟩, hpad⟩ : (ds.length = NumDirect ∧ 0 ≤ ns) ∧
        ∀ x ∈ ds.drop ns.toNat, x = -1 := by
      simpa [paddedChain] using hp
    simp only [allocatedSpan] at hspan
    have h0 : 0 ≤ off := le_trans (mul_nonneg hns (by positivity)) hspan
    lift off to ℕ using h0 with k
    have hkge : ns.toNat * SectorSize ≤ k := by
      have hns' : (ns.toNat : Int) = ns := Int.toNat_of_nonneg hns
      have h1 : (ns.toNat : Int) * (SectorSize : Int) ≤ (k : Int) := by
        rw [hns']; exact hspan
      exact_mod_cast h1
    have hdivge : ns.toNat ≤ k / SectorSize :=
      (Nat.le_div_iff_mul_le (by decide : 0 < SectorSize)).mpr hkge
    simp only [ByteToSector, tdiv_coe]
    by_cases hlt : k / SectorSize < NumDirect
    · rw [if_pos (by exact_mod_cast hlt)]
      rw [Int.toNat_natCast]
      have hidx : k / SectorSize < ds.length := by omega
      rw [List.getD_eq_getElem?_getD, List.getElem?_eq_getElem hidx]
      have hdroplen : k / SectorSize - ns.toNat < (ds.drop ns.toNat).length := by
        rw [List.length_drop]; omega
      have hget : ds[k / SectorSize] = (ds.drop ns.toNat)[k / SectorSize - ns.toNat] := by
        rw [List.getElem_drop]
        congr 1
        omega
      have := hpad _ (List.getElem_mem hdroplen)
      rw [hget]
      simpa using this
    · rw [if_neg (by exact_mod_cast hlt)]
  | .mk b ns ds nhs (some c), off => by
    intro hp hspan
    have hpc : paddedChain c = true := by
      simp [paddedChain] at hp
      exact hp.2
    simp only [allocatedSpan] at hspan
    have hc0 := allocatedSpan_nonneg c hpc
    have hM : (MaxFileSize : Int) = 3840 := by decide
    have h0 : 0 ≤ off := by omega
    lift off to ℕ using h0 with k
    have hk : MaxFileSize ≤ k := by
      have h1 : (MaxFileSize : Int) ≤ (k : Int) := by omega
      exact_mod_cast h1
    have hsec : NumDirect ≤ k / SectorSize := by
      rw [Nat.le_div_iff_mul_le (by decide : 0 < SectorSize)]
      exact hk
    simp only [ByteToSector, tdiv_coe]
    rw [if_neg (by exact_mod_cast Nat.not_lt.mpr hsec)]
    have hsub : ((k : Int) - (MaxFileSize : Int)) = ((k - MaxFileSize : Nat) : Int) := by
      omega
    rw [hsub]
    exact byteToSector_sentinel c _ hpc (by omega)

/-! ## Purity of the two queries -/

theorem queries_pure_aux :
    ∀ (h : FileHeader) (off : Int),
      byteToSectorTr h off = (ByteToSector h off, h) ∧
      fileLengthTr h = (FileLength h, h)
  | .mk b ns ds nhs none, off => by
    refine ⟨?_, rfl⟩
    simp only [byteToSectorTr, ByteToSector]
    split <;> rfl
  | .mk b ns ds nhs (some c), off => by
    have ih := queries_pure_aux c (off - (MaxFileSize : Int))
    refine ⟨?_, ?_⟩
    · simp only [byteToSectorTr, ByteToSector]
      split
      · rfl
      · rw [ih.1]
    · simp only [fileLengthTr, FileLength]
      rw [ih.2]

/-! ## Every successful allocation yields a well-formed, sentinel-padded chain -/

theorem allocAux_wellformed :
    ∀ (fuel : Nat) (fs : Int) (m : FreeMap) (h : FileHeader) (m' : FreeMap),
      fs.toNat < fuel → 0 ≤ fs →
      allocAux fuel emptyFileHeader m fs = (true, h, m') →
      goodChain h = true ∧ paddedChain h = true := by
  intro fuel
  induction fuel with
  | zero => intro fs m h m' hf; omega
  | succ k ih =>
    intro fs m h m' hf h0 hal
    have hM : (MaxFileSize : Int) = 3840 := by decide
    by_cases hrem : 0 < fs - (MaxFileSize : Int)
    · rw [allocAux] at hal
      simp only [if_pos hrem] at hal
      by_cases hcap : NumClear m < divRoundUp (MaxFileSize : Int) (SectorSize : Int)
      · rw [if_pos hcap] at hal
        simp at hal
      · rw [if_neg hcap] at hal
        set m1 := (findAndSetN m (divRoundUp (MaxFileSize : Int)
          (SectorSize : Int)).toNat).2 with hm1
        by_cases hq : (FindAndSet m1).1 = -1
        · rw [if_pos hq] at hal
          simp at hal
        · rw [if_neg hq] at hal
          set r := allocAux k emptyFileHeader (FindAndSet m1).2
            (fs - (MaxFileSize : Int)) with hr
          obtain ⟨hok, hh, _⟩ : r.1 = true ∧
              FileHeader.mk (MaxFileSize : Int)
                (divRoundUp (MaxFileSize : Int) (SectorSize : Int))
                ((findAndSetN m (divRoundUp (MaxFileSize : Int)
                  (SectorSize : Int)).toNat).1 ++
                  emptyFileHeader.dataSectors.drop (divRoundUp (MaxFileSize : Int)
                    (SectorSize : Int)).toNat)
                (FindAndSet m1).1 (some r.2.1) = h ∧ r.2.2 = m' := by
            have h1 := hal
            rw [Prod.ext_iff] at h1
            obtain ⟨h1a, h1b⟩ := h1
            rw [Prod.ext_iff] at h1b
            exact ⟨h1a, h1b.1, h1b.2⟩
          obtain ⟨ihg, ihp⟩ := ih (fs - (MaxFileSize : Int)) (FindAndSet m1).2
            r.2.1 r.2.2 (by omega) (by omega) (by rw [← hr, ← hok])
          subst hh
          have hlen : ((findAndSetN m (divRoundUp (MaxFileSize : Int)
              (SectorSize : Int)).toNat).1 ++
              emptyFileHeader.dataSectors.drop (divRoundUp (MaxFileSize : Int)
                (SectorSize : Int)).toNat).length = NumDirect := by
            rw [List.length_append, findAndSetN_length, List.length_drop]
            decide
          constructor
          · simp [goodChain, hlen, ihg]
          · simp [paddedChain, hlen, ihp]
    · rw [allocAux] at hal
      simp only [if_neg hrem] at hal
      by_cases hcap : NumClear m < divRoundUp fs (SectorSize : Int)
      · rw [if_pos hcap] at hal
        simp at hal
      · rw [if_neg hcap] at hal
        obtain ⟨hh, _⟩ : FileHeader.mk fs (divRoundUp fs (SectorSize : Int))
            ((findAndSetN m (divRoundUp fs (SectorSize : Int)).toNat).1 ++
              emptyFileHeader.dataSectors.drop (divRoundUp fs (SectorSize : Int)).toNat)
            emptyFileHeader.nextHeaderSector emptyFileHeader.nextHeader = h ∧
            (findAndSetN m (divRoundUp fs (SectorSize : Int)).toNat).2 = m' := by
          have h1 := hal
          rw [Prod.ext_iff] at h1
          obtain ⟨_, h1b⟩ := h1
          rw [Prod.ext_iff] at h1b
          exact ⟨h1b.1, h1b.2⟩
        subst hh
        lift fs to ℕ using h0 with kk
        have hkk : kk ≤ MaxFileSize := by
          have h1 : (kk : Int) ≤ (MaxFileSize : Int) := by omega
          exact_mod_cast h1
        have hcoe := divRoundUp_coe kk SectorSize
        have hnsval : (divRoundUp (kk : Int) (SectorSize : Int)).toNat
            = kk / SectorSize + (if 0 < kk % SectorSize then 1 else 0) := by
          rw [hcoe, Int.toNat_natCast]
        have hnsle : (divRoundUp (kk : Int) (SectorSize : Int)).toNat ≤ NumDirect := by
          rw [hnsval]
          have hS : SectorSize = 128 := rfl
          have hN : NumDirect = 30 := rfl
          have hMn : MaxFileSize = 3840 := rfl
          rw [hMn] at hkk
          rw [hS, hN]
          split_ifs with hmod <;> omega
        have hlen1 := findAndSetN_length m (divRoundUp (kk : Int) (SectorSize : Int)).toNat
        have hlenrep : (emptyFileHeader.dataSectors).length = NumDirect := by decide
        have hlen : ((findAndSetN m (divRoundUp (kk : Int) (SectorSize : Int)).toNat).1 ++
            emptyFileHeader.dataSectors.drop
              (divRoundUp (kk : Int) (SectorSize : Int)).toNat).length = NumDirect := by
          rw [List.length_append, hlen1, List.length_drop, hlenrep]
          omega
        have hdrop : ((findAndSetN m (divRoundUp (kk : Int) (SectorSize : Int)).toNat).1 ++
            emptyFileHeader.dataSectors.drop
              (divRoundUp (kk : Int) (SectorSize : Int)).toNat).drop
                (divRoundUp (kk : Int) (SectorSize : Int)).toNat
            = emptyFileHeader.dataSectors.drop
                (divRoundUp (kk : Int) (SectorSize : Int)).toNat :=
          List.drop_left' hlen1
        constructor
        · simp only [goodChain, hlen, Bool.and_eq_true, decide_eq_true_eq]
          refine ⟨⟨by simp, Int.natCast_nonneg _⟩, by exact_mod_cast hkk⟩
        · simp only [paddedChain, hlen, Bool.and_eq_true, decide_eq_true_eq,
            List.all_eq_true]
          refine ⟨⟨by simp, by rw [hcoe]; exact Int.natCast_nonneg _⟩, ?_⟩
          intro x hx
          rw [hdrop] at hx
          have := List.mem_of_mem_drop hx
          simpa using List.eq_of_mem_replicate this

/-- Successful root allocations (on a fresh header) produce chains
satisfying both `goodChain` (the C6 hypothesis) and `paddedChain`
(the C7 hypothesis). -/
theorem allocate_wellformed
    (fs : Int) (m : FreeMap) (h : FileHeader) (m' : FreeMap)
    (h0 : 0 ≤ fs) (hal : Allocate emptyFileHeader m fs = (true, h, m')) :
    goodChain h = true ∧ paddedChain h = true :=
  allocAux_wellformed (fs.toNat + 1) fs m h m' (by omega) h0 hal

/-! ## The claims -/

/-- C1: the claim (rollback of every claimed sector when Allocate fails,
leaving the Free-Space Map exactly as before the call) is what the spec
mandates, and the code violates it.  Concretely: with 30 free sectors,
`Allocate(freeMap, 3841)` claims all 30 data sectors for the first node,
then fails to claim the continuation's header sector and returns failure
with all 30 sectors still marked used — the map is left full instead of
being restored. -/
theorem allocate_failure_leaks_claimed_sectors :
    NumClear (List.replicate 30 false) = 30 ∧
    (Allocate emptyFileHeader (List.replicate 30 false) 3841).1 = false ∧
    (Allocate emptyFileHeader (List.replicate 30 false) 3841).2.2
      = List.replicate 30 true ∧
    NumClear (Allocate emptyFileHeader (List.replicate 30 false) 3841).2.2 = 0 := by
  decide

/-- C2 counterexample: starting from a map of 32 free sectors,
`Allocate(3841)` succeeds (two-node chain), but `Deallocate` does not
restore the map: the continuation header's sector (index 30) stays marked
used, so the claim "restores the Free-Space Map to exactly M" is false for
multi-node chains. -/
theorem allocate_deallocate_cycle_counterexample :
    (Allocate emptyFileHeader (List.replicate 32 false) 3841).1 = true ∧
    Deallocate (Allocate emptyFileHeader (List.replicate 32 false) 3841).2.1
        (Allocate emptyFileHeader (List.replicate 32 false) 3841).2.2
      = some (List.replicate 30 false ++ [true, false]) ∧
    (List.replicate 30 false ++ [true, false] : FreeMap)
      ≠ List.replicate 32 false := by
  decide

/-- C2 (amended): for `totalBytes` fitting in a single node
(`totalBytes ≤ MaxFileSize`), a successful Allocate followed by Deallocate
restores the Free-Space Map to exactly the starting map M; for multi-node
chains the continuation header sectors remain claimed (see the
counterexample). -/
theorem allocate_deallocate_single_node_restores_map
    (m : FreeMap) (fs : Int) (_hfs0 : 0 ≤ fs) (hfsM : fs ≤ (MaxFileSize : Int))
    (h : FileHeader) (m' : FreeMap)
    (hal : Allocate emptyFileHeader m fs = (true, h, m')) :
    Deallocate h m' = some m := by
  have hM : (MaxFileSize : Int) = 3840 := by decide
  have hrem : ¬ 0 < fs - (MaxFileSize : Int) := by omega
  rw [Allocate, allocAux] at hal
  simp only [if_neg hrem] at hal
  by_cases hcap : NumClear m < divRoundUp fs (SectorSize : Int)
  · rw [if_pos hcap] at hal
    simp at hal
  · rw [if_neg hcap] at hal
    obtain ⟨hh, hm'⟩ : FileHeader.mk fs (divRoundUp fs (SectorSize : Int))
        ((findAndSetN m (divRoundUp fs (SectorSize : Int)).toNat).1 ++
          emptyFileHeader.dataSectors.drop (divRoundUp fs (SectorSize : Int)).toNat)
        emptyFileHeader.nextHeaderSector emptyFileHeader.nextHeader = h ∧
        (findAndSetN m (divRoundUp fs (SectorSize : Int)).toNat).2 = m' := by
      have h1 := hal
      rw [Prod.ext_iff] at h1
      obtain ⟨_, h2⟩ := h1
      rw [Prod.ext_iff] at h2
      exact ⟨h2.1, h2.2⟩
    subst hh
    subst hm'
    have hle : (divRoundUp fs (SectorSize : Int)).toNat ≤ m.count false := by
      unfold NumClear at hcap
      omega
    obtain ⟨_, _, _, hclear⟩ := findAndSetN_spec _ m hle
    have hlen1 := findAndSetN_length m (divRoundUp fs (SectorSize : Int)).toNat
    have hnone : emptyFileHeader.nextHeader = (none : Option FileHeader) := rfl
    rw [hnone]
    simp only [Deallocate]
    rw [List.take_append_of_le_length (le_of_eq hlen1.symm),
      List.take_of_length_le (le_of_eq hlen1)]
    exact hclear

/-- C2 witness: a concrete single-node cycle, `Allocate(300)` on a map of
5 free sectors followed by Deallocate, restoring the map exactly. -/
theorem allocate_deallocate_single_node_restores_map_witness :
    0 ≤ (300 : Int) ∧ (300 : Int) ≤ (MaxFileSize : Int) ∧
    Allocate emptyFileHeader (List.replicate 5 false) 300
      = (true, (Allocate emptyFileHeader (List.replicate 5 false) 300).2.1,
          (Allocate emptyFileHeader (List.replicate 5 false) 300).2.2) ∧
    Deallocate (Allocate emptyFileHeader (List.replicate 5 false) 300).2.1
        (Allocate emptyFileHeader (List.replicate 5 false) 300).2.2
      = some (List.replicate 5 false) :=
  ⟨by decide, by decide, by decide,
    allocate_deallocate_single_node_restores_map (List.replicate 5 false) 300
      (by decide) (by decide)
      (Allocate emptyFileHeader (List.replicate 5 false) 300).2.1
      (Allocate emptyFileHeader (List.replicate 5 false) 300).2.2 (by decide)⟩

/-- C3: after a successful root Allocate of `totalBytes ≥ 0` on a fresh
header, `fileLength()` equals `totalBytes`, the chain has
`ceil(totalBytes / MaxFileSize)` nodes (1 when totalBytes = 0), every
non-terminal node has `contentBytes = MaxFileSize`, and every node's
`sectorCount = ceil(contentBytes / SectorSize)`. -/
theorem allocate_success_shape
    (fs : Int) (m : FreeMap) (h : FileHeader) (m' : FreeMap)
    (h0 : 0 ≤ fs) (hal : Allocate emptyFileHeader m fs = (true, h, m')) :
    FileLength h = fs ∧
    (chainLength h : Int) = (if fs = 0 then 1 else divRoundUp fs (MaxFileSize : Int)) ∧
    (∀ node ∈ (chainNodes h).dropLast, node.numBytes = (MaxFileSize : Int)) ∧
    (∀ node ∈ chainNodes h,
      node.numSectors = divRoundUp node.numBytes (SectorSize : Int)) :=
  allocAux_shape (fs.toNat + 1) fs m h m' (by omega) h0 hal

/-- C3 witness: the spec's own example, `Allocate(5000)` (on a map with 41
free sectors): a 2-node chain — node 1 with `contentBytes = 3840`,
`sectorCount = 30`; node 2 with `contentBytes = 1160`, `sectorCount = 10`
— and `fileLength() = 5000 = totalBytes`, chain length
`2 = ceil(5000/3840)`. -/
theorem allocate_success_shape_witness :
    0 ≤ (5000 : Int) ∧
    Allocate emptyFileHeader (List.replicate 41 false) 5000
      = (true, (Allocate emptyFileHeader (List.replicate 41 false) 5000).2.1,
          (Allocate emptyFileHeader (List.replicate 41 false) 5000).2.2) ∧
    (Allocate emptyFileHeader (List.replicate 41 false) 5000).2.1.numBytes = 3840 ∧
    (Allocate emptyFileHeader (List.replicate 41 false) 5000).2.1.numSectors = 30 ∧
    ((Allocate emptyFileHeader (List.replicate 41 false) 5000).2.1.nextHeader.map
      FileHeader.numBytes) = some 1160 ∧
    ((Allocate emptyFileHeader (List.replicate 41 false) 5000).2.1.nextHeader.map
      FileHeader.numSectors) = some 10 ∧
    chainLength (Allocate emptyFileHeader (List.replicate 41 false) 5000).2.1 = 2 ∧
    (FileLength (Allocate emptyFileHeader (List.replicate 41 false) 5000).2.1 = 5000 ∧
      (chainLength (Allocate emptyFileHeader (List.replicate 41 false) 5000).2.1 : Int)
        = (if (5000 : Int) = 0 then 1 else divRoundUp 5000 (MaxFileSize : Int)) ∧
      (∀ node ∈ (chainNodes
          (Allocate emptyFileHeader (List.replicate 41 false) 5000).2.1).dropLast,
        node.numBytes = (MaxFileSize : Int)) ∧
      (∀ node ∈ chainNodes (Allocate emptyFileHeader (List.replicate 41 false) 5000).2.1,
        node.numSectors = divRoundUp node.numBytes (SectorSize : Int))) :=
  ⟨by decide, by decide, by decide, by decide, by decide, by decide, by decide,
    allocate_success_shape 5000 (List.replicate 41 false)
      (Allocate emptyFileHeader (List.replicate 41 false) 5000).2.1
      (Allocate emptyFileHeader (List.replicate 41 false) 5000).2.2
      (by decide) (by decide)⟩

/-- C4: the claim (WriteBack then FetchFrom are exact inverses, field for
field including `continuationSector`) is the spec's intent, and the code
cannot satisfy it: under the stated constants the `nextHeaderSector` copy
falls outside the one-sector buffer (the C5 overflow), so the persisted
sector holds only `contentBytes`, `sectorCount` and `directSectors`
(`writeBack_persists_fields`), and FetchFrom's `nextHeaderSector` comes
from the unspecified bytes past the buffer, not from the disk
(`fetchFrom_root_fields`).  Concretely: a single-node chain and a
two-node chain that differ only in their continuation link leave
pointwise-identical on-disk states when written to root sector 7, so
FetchFrom — a function of the disk, the root sector and the out-of-buffer
garbage — cannot reconstruct both chains, whatever the garbage reads
yield: the round trip fails for at least one of the two, for every
garbage oracle and every fuel. -/
theorem writeBack_fetchFrom_not_inverse :
    consistentB (FileHeader.mk 3840 30 [1, 2] (-1) none) = true ∧
    consistentB (FileHeader.mk 3840 30 [1, 2] 9
      (some (FileHeader.mk 100 1 [3] (-1) none))) = true ∧
    FileHeader.mk 3840 30 [1, 2] (-1) none
      ≠ FileHeader.mk 3840 30 [1, 2] 9 (some (FileHeader.mk 100 1 [3] (-1) none)) ∧
    ∃ dA dB,
      WriteBack (FileHeader.mk 3840 30 [1, 2] (-1) none)
          (diskWrite (fun _ => ⟨0, 0, []⟩) 9 ⟨100, 1, [3]⟩) 7 = some dA ∧
      WriteBack (FileHeader.mk 3840 30 [1, 2] 9
          (some (FileHeader.mk 100 1 [3] (-1) none))) (fun _ => ⟨0, 0, []⟩) 7
        = some dB ∧
      dA = dB ∧
      ∀ (fuel : Nat) (gar : Nat → Int),
        ¬(FetchFrom fuel gar emptyFileHeader dA 7
            = some (FileHeader.mk 3840 30 [1, 2] (-1) none) ∧
          FetchFrom fuel gar emptyFileHeader dB 7
            = some (FileHeader.mk 3840 30 [1, 2] 9
                (some (FileHeader.mk 100 1 [3] (-1) none)))) := by
  have hd : diskWrite (diskWrite (fun _ => (⟨0, 0, []⟩ : DiskRecord)) 9 ⟨100, 1, [3]⟩) 7
        ⟨3840, 30, [1, 2]⟩
      = diskWrite (diskWrite (fun _ => (⟨0, 0, []⟩ : DiskRecord)) 7 ⟨3840, 30, [1, 2]⟩) 9
        ⟨100, 1, [3]⟩ := by
    funext t
    by_cases h7 : t = 7
    · subst h7
      simp [diskWrite]
    · by_cases h9 : t = 9
      · subst h9
        simp [diskWrite]
      · simp [diskWrite, h7, h9]
  refine ⟨by decide, by decide, by decide,
    diskWrite (diskWrite (fun _ => ⟨0, 0, []⟩) 9 ⟨100, 1, [3]⟩) 7 ⟨3840, 30, [1, 2]⟩,
    diskWrite (diskWrite (fun _ => ⟨0, 0, []⟩) 7 ⟨3840, 30, [1, 2]⟩) 9 ⟨100, 1, [3]⟩,
    rfl, rfl, hd, ?_⟩
  intro fuel gar hcontra
  obtain ⟨hA, hB⟩ := hcontra
  rw [hd] at hA
  have heq := hA.symm.trans hB
  rw [Option.some_inj] at heq
  exact absurd heq (by decide)

/-- C5: the claim that the serialized record fits in one sector is what
both the spec (§6) and the source's own header comment require, and the
constants violate it: the record is `(NumDirect + 3) × 4 = 132` bytes
while `SectorSize = 128`, so the final 4-byte `nextHeaderSector` copy of
WriteBack/FetchFrom starts at byte offset 128 — at the very end of, and
running past, the `char buf[SectorSize]` buffer. -/
theorem header_record_exceeds_sector :
    headerRecordBytes = (NumDirect + 3) * 4 ∧
    headerRecordBytes = 132 ∧
    SectorSize = 128 ∧
    SectorSize < headerRecordBytes ∧
    nextHeaderSectorOffset = SectorSize ∧
    SectorSize < nextHeaderSectorOffset + 4 := by
  decide

/-- C6: on every well-formed allocated chain (non-terminal nodes full,
full-width `dataSectors`), for every offset in `[0, fileLength())` the
recursive `ByteToSector` translation returns exactly
`directSectors[(offset mod MaxFileSize) / SectorSize]` of chain node
number `offset / MaxFileSize` — the spec's direct chain-walk definition
(`byteToSectorSpec`). -/
theorem byteToSector_matches_chain_walk
    (h : FileHeader) (off : Int) (hg : goodChain h = true)
    (h0 : 0 ≤ off) (hlt : off < FileLength h) :
    ByteToSector h off = byteToSectorSpec h off :=
  byteToSector_walk h off hg h0 hlt

/-- C6 witness: the spec's example — on the `Allocate(5000)` chain,
offset 3900 translates through node 2 (index 0 within it), and the
recursive translation agrees with the chain walk. -/
theorem byteToSector_matches_chain_walk_witness :
    goodChain (Allocate emptyFileHeader (List.replicate 41 false) 5000).2.1 = true ∧
    0 ≤ (3900 : Int) ∧
    (3900 : Int) < FileLength (Allocate emptyFileHeader (List.replicate 41 false) 5000).2.1 ∧
    ByteToSector (Allocate emptyFileHeader (List.replicate 41 false) 5000).2.1 3900 = 31 ∧
    ByteToSector (Allocate emptyFileHeader (List.replicate 41 false) 5000).2.1 3900
      = byteToSectorSpec (Allocate emptyFileHeader (List.replicate 41 false) 5000).2.1 3900 :=
  ⟨by decide, by decide, by decide, by decide,
    byteToSector_matches_chain_walk _ 3900 (by decide) (by decide) (by decide)⟩

/-- C7 counterexample: a 100-byte file occupies one 128-byte sector;
offset 110 is at or beyond the recorded file length (100), yet
`ByteToSector` returns the valid data sector (index 0), not the `-1`
sentinel — the claim as stated is false for offsets inside the slack of
the last claimed sector. -/
theorem byteToSector_beyond_length_counterexample :
    (Allocate emptyFileHeader [false, false] 100).1 = true ∧
    FileLength (Allocate emptyFileHeader [false, false] 100).2.1 = 100 ∧
    ByteToSector (Allocate emptyFileHeader [false, false] 100).2.1 110 = 0 ∧
    ByteToSector (Allocate emptyFileHeader [false, false] 100).2.1 110 ≠ -1 := by
  decide

/-- C7 (amended): on a chain whose unused direct entries still hold the
constructor's `-1` (as all Allocate-produced chains do), `ByteToSector`
returns the `-1` sentinel exactly from the allocated-sector span onward:
for every offset at or beyond
`(number of full nodes) * MaxFileSize + sectorCount * SectorSize` of the
terminal node.  Offsets between `fileLength()` and that span return the
valid sector covering the slack of the last claimed sector (see the
counterexample). -/
theorem byteToSector_sentinel_beyond_allocated_span
    (h : FileHeader) (off : Int) (hp : paddedChain h = true)
    (hspan : allocatedSpan h ≤ off) : ByteToSector h off = -1 :=
  byteToSector_sentinel h off hp hspan

/-- C7 witness: the 100-byte single-sector file again; its allocated span
is `1 * SectorSize = 128`, and offset 130 ≥ 128 yields the sentinel. -/
theorem byteToSector_sentinel_beyond_allocated_span_witness :
    paddedChain (Allocate emptyFileHeader [false, false] 100).2.1 = true ∧
    allocatedSpan (Allocate emptyFileHeader [false, false] 100).2.1 ≤ 130 ∧
    ByteToSector (Allocate emptyFileHeader [false, false] 100).2.1 130 = -1 :=
  ⟨by decide, by decide,
    byteToSector_sentinel_beyond_allocated_span _ 130 (by decide) (by decide)⟩

/-- C8: the pointer/sector consistency invariant (`nextHeader` non-null
iff `nextHeaderSector ≠ -1`) is what the spec requires, and the code
breaks it on Allocate's continuation-claim failure path: with 30 free
sectors, `Allocate(3841)` executes `nextHeader = new FileHeader;
nextHeaderSector = freeMap->FindAndSet();` which returns -1, then
`delete nextHeader` without nulling the pointer — the state has a
non-null (dangling) `nextHeader` with `nextHeaderSector = -1`. -/
theorem allocate_failure_breaks_pointer_invariant :
    (Allocate emptyFileHeader (List.replicate 30 false) 3841).1 = false ∧
    (Allocate emptyFileHeader (List.replicate 30 false) 3841).2.1.nextHeader.isSome
      = true ∧
    (Allocate emptyFileHeader (List.replicate 30 false) 3841).2.1.nextHeaderSector
      = -1 ∧
    consistentB (Allocate emptyFileHeader (List.replicate 30 false) 3841).2.1
      = false := by
  decide

/-- C9 counterexample: a node whose first two direct entries alias the
same sector 1, with sector 1 marked used: every direct sector of the
chain is marked used, yet Deallocate hits the fatal
`ASSERT(freeMap->Test(...))` on the second entry (after the first
iteration cleared it) — so the claim's precondition does not make the
fatal branch unreachable without pairwise distinctness. -/
theorem deallocate_duplicate_sector_counterexample :
    (chainDirectSectors (FileHeader.mk 200 2 ([1, 1] ++ List.replicate 28 (-1))
      (-1) none)).all (fun s => Test [false, true] s) = true ∧
    Deallocate (FileHeader.mk 200 2 ([1, 1] ++ List.replicate 28 (-1)) (-1) none)
      [false, true] = none := by
  decide

/-- C9 (amended): Deallocate recursively releases the continuation first
and then clears this node's `sectorCount` direct entries, halting fatally
on any entry already free; under the precondition that the chain's direct
sectors are pairwise distinct and all marked used, the fatal branch is
unreachable, every direct sector of every node ends up cleared, and no
other sector's bit changes. -/
theorem deallocate_distinct_marked_sectors_clears_all
    (h : FileHeader) (m : FreeMap)
    (hnd : (chainDirectSectors h).Nodup)
    (hused : ∀ s ∈ chainDirectSectors h, Test m s = true) :
    ∃ m', Deallocate h m = some m' ∧
      (∀ s ∈ chainDirectSectors h, Test m' s = false) ∧
      (∀ t, t ∉ chainDirectSectors h → Test m' t = Test m t) :=
  deallocate_sound h m hnd hused

/-- C9 witness: a two-node chain with distinct direct sectors 5, 6
(root) and 7 (continuation), all marked used, deallocated without hitting
the fatal branch and ending with all three cleared. -/
theorem deallocate_distinct_marked_sectors_clears_all_witness :
    (chainDirectSectors (FileHeader.mk 200 2 ([5, 6] ++ List.replicate 28 (-1)) 8
      (some (FileHeader.mk 100 1 ([7] ++ List.replicate 29 (-1)) (-1) none)))).Nodup ∧
    (∀ s ∈ chainDirectSectors (FileHeader.mk 200 2 ([5, 6] ++ List.replicate 28 (-1)) 8
        (some (FileHeader.mk 100 1 ([7] ++ List.replicate 29 (-1)) (-1) none))),
      Test [false, false, false, false, false, true, true, true, false] s = true) ∧
    ∃ m', Deallocate (FileHeader.mk 200 2 ([5, 6] ++ List.replicate 28 (-1)) 8
        (some (FileHeader.mk 100 1 ([7] ++ List.replicate 29 (-1)) (-1) none)))
        [false, false, false, false, false, true, true, true, false] = some m' ∧
      (∀ s ∈ chainDirectSectors (FileHeader.mk 200 2 ([5, 6] ++ List.replicate 28 (-1)) 8
          (some (FileHeader.mk 100 1 ([7] ++ List.replicate 29 (-1)) (-1) none))),
        Test m' s = false) ∧
      (∀ t, t ∉ chainDirectSectors (FileHeader.mk 200 2 ([5, 6] ++ List.replicate 28 (-1)) 8
          (some (FileHeader.mk 100 1 ([7] ++ List.replicate 29 (-1)) (-1) none))) →
        Test m' t = Test [false, false, false, false, false, true, true, true, false] t) :=
  ⟨by decide, by decide,
    deallocate_distinct_marked_sectors_clears_all _ _ (by decide) (by decide)⟩

/-- C10: `ByteToSector` and `FileLength` are read-only queries: the
statement-level state-threading embeddings (`byteToSectorTr`,
`fileLengthTr`), which return the receiver chain as each call leaves it,
return the chain unchanged at every node and compute exactly the pure
functions `ByteToSector`/`FileLength` of the chain state alone (they take
no Free-Space Map or Block Store argument because the source methods
never touch either). -/
theorem byteToSector_fileLength_pure (h : FileHeader) (off : Int) :
    byteToSectorTr h off = (ByteToSector h off, h) ∧
    fileLengthTr h = (FileLength h, h) :=
  queries_pure_aux h off

end NachOSFileHdr
